import Mathlib

/-!
Verification of the calculator core (arithmetic engine, calculation history
with CSV persistence, and the command registry) of the repository, as a
shallow embedding in Lean 4.

Modelling conventions:
* Python Decimal operands are modelled as exact rationals. The four
  arithmetic operations are exact on the inputs exercised here; only
  division rounds in Python, and no property below depends on the
  rounding of a non-terminating quotient.
* A Python exception is modelled as an error value; functions that can
  raise return an Except or pair the new state with an Option error.
* The class-level mutable history list is threaded explicitly as a value
  of type List Calculation; the backing CSV file is a HistFile value.
* The Python dict backing the command registry is modelled as an
  insertion-ordered association list with in-place update on an existing
  key, which is exactly CPython dict semantics.
-/

instance {ε α : Type} [DecidableEq ε] [DecidableEq α] : DecidableEq (Except ε α) := fun x y =>
  match x, y with
  | .ok a, .ok b => decidable_of_iff (a = b) (by simp)
  | .ok _, .error _ => isFalse (by simp)
  | .error _, .ok _ => isFalse (by simp)
  | .error d, .error e => decidable_of_iff (d = e) (by simp)

/-- Error raised by division when the divisor is zero
(ZeroDivisionError in operations.py). -/
inductive CalcError where
  | divisionByZero
  deriving DecidableEq

/-- The four operation functions of the ArithmeticOperations class,
identified by their Python function names. Only these four functions are
ever stored in a Calculation by the calculator facade or by
load_history_from_csv. -/
inductive Op where
  | addition
  | subtraction
  | multiplication
  | division
  deriving DecidableEq

namespace ArithmeticOperations

/-- ArithmeticOperations.addition: return num1 + num2. -/
def addition (num1 num2 : ℚ) : Except CalcError ℚ := .ok (num1 + num2)

/-- ArithmeticOperations.subtraction: return num1 - num2. -/
def subtraction (num1 num2 : ℚ) : Except CalcError ℚ := .ok (num1 - num2)

/-- ArithmeticOperations.multiplication: return num1 * num2. -/
def multiplication (num1 num2 : ℚ) : Except CalcError ℚ := .ok (num1 * num2)

/-- ArithmeticOperations.division: raise ZeroDivisionError if num2 == 0,
else return num1 / num2. -/
def division (num1 num2 : ℚ) : Except CalcError ℚ :=
  if num2 = 0 then .error .divisionByZero else .ok (num1 / num2)

end ArithmeticOperations

/-- Apply the operation function named by the tag (calling the stored
function reference in Python). -/
def Op.apply : Op → ℚ → ℚ → Except CalcError ℚ
  | .addition => ArithmeticOperations.addition
  | .subtraction => ArithmeticOperations.subtraction
  | .multiplication => ArithmeticOperations.multiplication
  | .division => ArithmeticOperations.division

/-- The Python __name__ attribute of each operation function, as used by
save_history_to_csv and by the operation_mapping of
load_history_from_csv. -/
def Op.opName : Op → String
  | .addition => "addition"
  | .subtraction => "subtraction"
  | .multiplication => "multiplication"
  | .division => "division"

/-- Calculation (calculation.py): two operands and the operation
function, immutable after construction. -/
structure Calculation where
  num1 : ℚ
  num2 : ℚ
  operation : Op
  deriving DecidableEq

/-- Calculation.create_calculation: factory, simply constructs the
instance. -/
def Calculation.create_calculation (num1 num2 : ℚ) (operation : Op) : Calculation :=
  ⟨num1, num2, operation⟩

/-- Calculation.compute: call the stored operation on the stored
operands; a ZeroDivisionError raised by division propagates. -/
def Calculation.compute (c : Calculation) : Except CalcError ℚ :=
  c.operation.apply c.num1 c.num2

namespace CalculationHistory

/-- CalculationHistory.add_calculation: append to the class-level
history list. -/
def add_calculation (hist : List Calculation) (c : Calculation) : List Calculation :=
  hist ++ [c]

/-- CalculationHistory.get_history: return the history list. -/
def get_history (hist : List Calculation) : List Calculation := hist

/-- CalculationHistory.get_latest_history: the last element of the
history, or None when the history is empty. -/
def get_latest_history (hist : List Calculation) : Option Calculation :=
  hist.getLast?

/-- CalculationHistory.clear_history: empty the history list. -/
def clear_history (_hist : List Calculation) : List Calculation := []

end CalculationHistory

namespace Calculator

/-- Calculator._calculate_and_record: create the Calculation, append it
to the shared history, then compute. The append happens BEFORE compute()
is called, so when compute raises (division by zero) the calculation has
already been recorded; the returned pair carries the outcome of compute
together with the history as it stands after the call. -/
def calculate_and_record (hist : List Calculation) (a b : ℚ) (op : Op) :
    Except CalcError ℚ × List Calculation :=
  let c := Calculation.create_calculation a b op
  (c.compute, CalculationHistory.add_calculation hist c)

/-- Calculator.add. -/
def add (hist : List Calculation) (a b : ℚ) : Except CalcError ℚ × List Calculation :=
  calculate_and_record hist a b .addition

/-- Calculator.subtract. -/
def subtract (hist : List Calculation) (a b : ℚ) : Except CalcError ℚ × List Calculation :=
  calculate_and_record hist a b .subtraction

/-- Calculator.multiply. -/
def multiply (hist : List Calculation) (a b : ℚ) : Except CalcError ℚ × List Calculation :=
  calculate_and_record hist a b .multiplication

/-- Calculator.divide. -/
def divide (hist : List Calculation) (a b : ℚ) : Except CalcError ℚ × List Calculation :=
  calculate_and_record hist a b .division

/-- The concrete scenario of the spec: starting from an empty history,
run add(5,3), then divide(20,4), then divide(1,0), threading the shared
history through; the three computation outcomes are paired with the
final history. -/
def scenario : (Except CalcError ℚ × Except CalcError ℚ × Except CalcError ℚ) × List Calculation :=
  let s1 := add [] 5 3
  let s2 := divide s1.2 20 4
  let s3 := divide s2.2 1 0
  ((s1.1, s2.1, s3.1), s3.2)

end Calculator

/-- One data row of the history CSV file: the values written under the
fld_Operation, fld_Operand1 and fld_Operand2 columns. Operand values are
modelled exactly (the CSV layer serializes and re-parses decimal
numbers; that round trip is treated as exact here). -/
abbrev CsvRow : Type := String × ℚ × ℚ

/-- Contents of a CSV file written by pandas to_csv: the header row of
column names followed by the data rows. -/
structure CsvFile where
  header : List String
  rows : List CsvRow
  deriving DecidableEq

/-- Observable states of the backing history file as distinguished by
load_history_from_csv: absent (FileNotFoundError), completely empty
(pandas EmptyDataError), unreadable for any other reason (the catch-all
except branch), or a readable CSV file. -/
inductive HistFile where
  | absent
  | emptyFile
  | corrupt
  | csv (f : CsvFile)
  deriving DecidableEq

/-- Outcome reported by load_history_from_csv through its logging calls:
one success message and three distinct failure messages. -/
inductive LoadOutcome where
  | success
  | emptyData
  | fileNotFound
  | otherFailure
  deriving DecidableEq

/-- Error raised by delete_calculation_by_index on an out-of-range index
(IndexError in Python). -/
inductive DeleteError where
  | indexOutOfRange
  deriving DecidableEq

/-- Rounding of a rational to the nearest integer with ties to even, the
tie-breaking rule of IEEE 754 round-to-nearest. -/
def roundHalfEven (x : ℚ) : ℤ :=
  if x - (⌊x⌋ : ℚ) < 1 / 2 then ⌊x⌋
  else if 1 / 2 < x - (⌊x⌋ : ℚ) then ⌊x⌋ + 1
  else if 2 ∣ ⌊x⌋ then ⌊x⌋ else ⌊x⌋ + 1

/-- The magnitude of a nonzero rational rounded onto the binary64 grid:
the significand is scaled to the exponent of the value (clamped at the
subnormal exponent -1074) and rounded to the nearest integer, ties to
even. -/
def float64Scaled (q : ℚ) : ℚ :=
  (roundHalfEven (|q| / (2:ℚ) ^ max (Int.log 2 |q| - 52) (-1074 : ℤ)) : ℚ) *
    (2:ℚ) ^ max (Int.log 2 |q| - 52) (-1074 : ℤ)

/-- The operand transformation applied by the load path of the program:
pandas read_csv parses the numeric operand columns into IEEE binary64
floats (correct rounding to nearest, ties to even) and Decimal(float)
then embeds the float's exact binary value, so the net effect on an
operand is correct rounding to the nearest binary64 value. This is lossy
for decimals that are not binary-representable (0.1 becomes
0.1000000000000000055511151231257827021181583404541015625). Values at or
beyond 2^1024, where IEEE overflows to infinity, lie outside the
finite-decimal operand domain modelled here; the definition saturates at
the largest finite double there and no statement below touches that
regime. -/
def float64Round (q : ℚ) : ℚ :=
  if q = 0 then 0
  else if (2:ℚ) ^ (1024 : ℤ) ≤ float64Scaled q then
    (if q < 0 then -1 else 1) * (((2:ℚ) ^ (53 : ℤ) - 1) * (2:ℚ) ^ (971 : ℤ))
  else (if q < 0 then -1 else 1) * float64Scaled q

namespace CalculationHistory

/-- The column names save_history_to_csv writes, in order. -/
def csvHeader : List String := ["fld_Operation", "fld_Operand1", "fld_Operand2"]

/-- The row save_history_to_csv writes for one Calculation: the Python
__name__ of the operation function and the two operands; the computed
result is not written. -/
def rowOfCalculation (c : Calculation) : CsvRow :=
  (c.operation.opName, c.num1, c.num2)

/-- CalculationHistory.save_history_to_csv: when the history is empty,
print a message and return without touching the file; otherwise
overwrite the file with a CSV holding one row per calculation in history
order. -/
def save_history_to_csv (hist : List Calculation) (file : HistFile) : HistFile :=
  if hist = [] then file
  else .csv ⟨csvHeader, hist.map rowOfCalculation⟩

/-- The operation_mapping dict of load_history_from_csv: the four
recognized operation names mapped back to the operation functions; any
other name is absent from the mapping. -/
def operation_mapping (name : String) : Option Op :=
  if name = "addition" then some .addition
  else if name = "subtraction" then some .subtraction
  else if name = "multiplication" then some .multiplication
  else if name = "division" then some .division
  else none

/-- The list comprehension of load_history_from_csv: rows whose
fld_Operation value is in operation_mapping become Calculations (the
get-with-default lambda is never reached for kept rows); all other rows
are dropped. The operands reach Decimal through the float64 column
values produced by pandas read_csv, so each stored operand is re-parsed
through float64Round before the Calculation is rebuilt. -/
def parseRow (r : CsvRow) : Option Calculation :=
  (operation_mapping r.1).map fun op =>
    Calculation.mk (float64Round r.2.1) (float64Round r.2.2) op

/-- CalculationHistory.load_history_from_csv: on a readable CSV the
class history is reassigned wholesale to the parsed rows; the three
except branches (empty file, missing file, anything else) only log,
leaving the history as it was. Returns the resulting history together
with the logged outcome. -/
def load_history_from_csv (hist : List Calculation) (file : HistFile) :
    List Calculation × LoadOutcome :=
  match file with
  | .csv f => (f.rows.filterMap parseRow, .success)
  | .emptyFile => (hist, .emptyData)
  | .absent => (hist, .fileNotFound)
  | .corrupt => (hist, .otherFailure)

/-- CalculationHistory.delete_calculation_by_index: when 0 <= index <
len(history) the entry is deleted and save_history_to_csv is called on
the shortened history; otherwise an IndexError is raised and nothing
changes. The new (history, file) state is returned together with the
raised error, if any. -/
def delete_calculation_by_index (hist : List Calculation) (file : HistFile) (index : ℤ) :
    (List Calculation × HistFile) × Option DeleteError :=
  if 0 ≤ index ∧ index < hist.length then
    let newHist := hist.eraseIdx index.toNat
    ((newHist, save_history_to_csv newHist file), none)
  else
    ((hist, file), some .indexOutOfRange)

end CalculationHistory

/-- A command plugin as the registry sees it: a name, a description, and
the execute method. A run of execute either returns normally or raises a
failure of some type ε (any Exception subclass in Python); execute is
modelled as a pure function of the argument list. -/
structure Command (ε : Type) where
  name : String
  description : String
  execute : List String → Except ε Unit

/-- Error observed by the caller of execute_command when the name is not
registered (the raised KeyError). -/
inductive DispatchError where
  | commandNotFound
  deriving DecidableEq

/-- CommandHandler: the commands dict, keyed by name. A CPython dict
preserves insertion order and updates an existing key in place, so it is
modelled as an association list with exactly that update rule. -/
structure CommandHandler (ε : Type) where
  commands : List (String × Command ε)

namespace CommandHandler

/-- Update rule of a Python dict assignment d[k] = v: if the key is
present its entry is overwritten where it stands, otherwise the pair is
appended at the end. -/
def dictInsert {α : Type} (d : List (String × α)) (k : String) (v : α) :
    List (String × α) :=
  if d.any (fun p => p.1 = k) then
    d.map fun p => if p.1 = k then (k, v) else p
  else
    d ++ [(k, v)]

/-- CommandHandler.register_command: warn (returned Boolean) when the
name is already registered, then assign into the dict; never raises. -/
def register_command {ε : Type} (h : CommandHandler ε) (cmd : Command ε) :
    CommandHandler ε × Bool :=
  (⟨dictInsert h.commands cmd.name cmd⟩, h.commands.any (fun p => p.1 = cmd.name))

/-- CommandHandler.get_commands: the (name, description) pairs of the
stored command objects, in dict order. -/
def get_commands {ε : Type} (h : CommandHandler ε) : List (String × String) :=
  h.commands.map fun p => (p.2.name, p.2.description)

/-- The self.commands.get(name) lookup of execute_command. -/
def findCommand {ε : Type} (h : CommandHandler ε) (name : String) : Option (Command ε) :=
  (h.commands.find? fun p => p.1 = name).map fun p => p.2

/-- CommandHandler.execute_command: raise KeyError when the name is not
registered; otherwise call execute inside try/except — an error raised
by execute is caught and logged, so the call returns normally whatever
execute did. The handler state itself is never modified by a dispatch. -/
def execute_command {ε : Type} (h : CommandHandler ε) (name : String)
    (args : List String) : Except DispatchError Unit :=
  match findCommand h name with
  | none => .error .commandNotFound
  | some cmd =>
    match cmd.execute args with
    | .ok _ => .ok ()
    | .error _ => .ok ()

/-- Registering a whole list of commands in order, starting from a given
handler (as the plugin loader does at startup). -/
def registerAll {ε : Type} (h : CommandHandler ε) (cs : List (Command ε)) :
    CommandHandler ε :=
  cs.foldl (fun acc c => (register_command acc c).1) h

end CommandHandler

/-- The order in which distinct command names first appear in a
registration sequence (specification-side description used to state the
listing-order property of the registry). -/
def firstSeen {ε : Type} (cs : List (Command ε)) : List String :=
  cs.foldl (fun ks c => if c.name ∈ ks then ks else ks ++ [c.name]) []

/-- The last command of the sequence bearing a given name, if any
(specification-side description of last-write-wins). -/
def lastNamed {ε : Type} (cs : List (Command ε)) (n : String) : Option (Command ε) :=
  cs.foldl (fun acc c => if c.name = n then some c else acc) none

/-- C1 (counterexample): in the concrete scenario add(5,3);
divide(20,4); divide(1,0) the three computation outcomes are as the
claim says, but the final history has length 3, not 2, because
_calculate_and_record appends the Calculation to the shared history
before compute() raises; in particular the claimed final state (length 2
with the divide(20,4) entry latest) is false. -/
theorem scenario_two_entry_history_refuted :
    Calculator.scenario.1.1 = .ok 8 ∧
    Calculator.scenario.1.2.1 = .ok 5 ∧
    Calculator.scenario.1.2.2 = .error .divisionByZero ∧
    Calculator.scenario.2.length = 3 ∧
    ¬ (Calculator.scenario.2.length = 2 ∧
        CalculationHistory.get_latest_history Calculator.scenario.2 =
          some (Calculation.create_calculation 20 4 .division)) := by
  refine ⟨?_, ?_, ?_, ?_, ?_⟩ <;>
    norm_num [Calculator.scenario, Calculator.add, Calculator.divide,
      Calculator.calculate_and_record, Calculation.compute,
      Calculation.create_calculation, Op.apply, ArithmeticOperations.addition,
      ArithmeticOperations.division, CalculationHistory.add_calculation]

/-- C1 (amended): add(5,3) returns 8, divide(20,4) returns 5,
divide(1,0) raises DivisionByZero, and afterwards the history contains
all three calculations in order — the failed division included, since
the record is appended before the computation runs — so it has length 3
and getLatest() is the divide(1,0) entry. -/
theorem scenario_three_entry_history :
    Calculator.scenario.1.1 = .ok 8 ∧
    Calculator.scenario.1.2.1 = .ok 5 ∧
    Calculator.scenario.1.2.2 = .error .divisionByZero ∧
    Calculator.scenario.2 =
      [Calculation.create_calculation 5 3 .addition,
        Calculation.create_calculation 20 4 .division,
        Calculation.create_calculation 1 0 .division] ∧
    CalculationHistory.get_latest_history Calculator.scenario.2 =
      some (Calculation.create_calculation 1 0 .division) := by
  refine ⟨?_, ?_, ?_, rfl, rfl⟩ <;>
    norm_num [Calculator.scenario, Calculator.add, Calculator.divide,
      Calculator.calculate_and_record, Calculation.compute,
      Calculation.create_calculation, Op.apply, ArithmeticOperations.addition,
      ArithmeticOperations.division, CalculationHistory.add_calculation]

/-- C2: dispatching a registered command never lets a failure raised by
its execute escape — execute_command returns normally whatever execute
does (and, the handler being left untouched by a dispatch, every
registered name keeps dispatching the same way afterwards) — while
dispatching an unregistered name raises the not-found error. -/
theorem execute_command_failure_boundary {ε : Type} (h : CommandHandler ε)
    (nm : String) (args : List String) :
    (∀ cmd : Command ε, h.findCommand nm = some cmd →
      h.execute_command nm args = .ok ()) ∧
    (h.findCommand nm = none →
      h.execute_command nm args = .error .commandNotFound) := by
  constructor
  · intro cmd hc
    unfold CommandHandler.execute_command
    simp only [hc]
    cases cmd.execute args <;> rfl
  · intro hc
    unfold CommandHandler.execute_command
    rw [hc]

/-- Witness for C2: a handler holding one command whose execute always
fails; dispatching it succeeds from the caller's point of view, and
dispatching a missing name reports not-found. -/
theorem execute_command_failure_boundary_witness :
    CommandHandler.execute_command
        (⟨[("boom", ⟨"boom", "always fails", fun _ => .error ()⟩)]⟩ : CommandHandler Unit)
        "boom" [] = .ok () ∧
    CommandHandler.execute_command
        (⟨[("boom", ⟨"boom", "always fails", fun _ => .error ()⟩)]⟩ : CommandHandler Unit)
        "missing" [] = .error .commandNotFound :=
  ⟨(execute_command_failure_boundary _ "boom" []).1 _ rfl,
    (execute_command_failure_boundary _ "missing" []).2 rfl⟩

/-- C3 (counterexample): saving the one-element history add(5,3) writes
the CSV with column names fld_Operation, fld_Operand1, fld_Operand2 —
not the names operation, operand1, operand2 stated by the claim. -/
theorem save_header_names_counterexample :
    CalculationHistory.save_history_to_csv
        [Calculation.create_calculation 5 3 .addition] .absent =
      .csv ⟨["fld_Operation", "fld_Operand1", "fld_Operand2"],
        [("addition", 5, 3)]⟩ ∧
    ("fld_Operation" : String) ≠ "operation" := by
  exact ⟨rfl, by decide⟩

/-- C3 (amended): for every non-empty history, save_history_to_csv
writes one record per Calculation in history order, each holding only
the operation name and the two operands (never the computed result),
under the header row fld_Operation, fld_Operand1, fld_Operand2. -/
theorem save_writes_one_row_per_calculation (hist : List Calculation)
    (file : HistFile) (hne : hist ≠ []) :
    ∃ rows : List CsvRow,
      CalculationHistory.save_history_to_csv hist file =
        .csv ⟨["fld_Operation", "fld_Operand1", "fld_Operand2"], rows⟩ ∧
      ∀ i : ℕ, rows[i]? =
        hist[i]?.map fun c => (c.operation.opName, c.num1, c.num2) := by
  refine ⟨hist.map CalculationHistory.rowOfCalculation, ?_, ?_⟩
  · simp [CalculationHistory.save_history_to_csv, hne, CalculationHistory.csvHeader]
  · intro i
    simp only [List.getElem?_map]
    cases hist[i]? <;> simp [CalculationHistory.rowOfCalculation]

/-- Witness for C3 (amended): the non-emptiness hypothesis discharged at
the one-element history add(5,3). -/
theorem save_writes_one_row_per_calculation_witness :
    ([Calculation.create_calculation 5 3 .addition] : List Calculation) ≠ [] ∧
    ∃ rows : List CsvRow,
      CalculationHistory.save_history_to_csv
          [Calculation.create_calculation 5 3 .addition] .absent =
        .csv ⟨["fld_Operation", "fld_Operand1", "fld_Operand2"], rows⟩ ∧
      ∀ i : ℕ, rows[i]? =
        (([Calculation.create_calculation 5 3 .addition] : List Calculation)[i]?).map
          fun c => (c.operation.opName, c.num1, c.num2) :=
  ⟨fun h => List.noConfusion h,
    save_writes_one_row_per_calculation _ .absent (fun h => List.noConfusion h)⟩

/-- Rounding an integer is the identity: the fractional part is zero, so
the first branch of the ties-to-even rounding applies. -/
theorem roundHalfEven_intCast (z : ℤ) : roundHalfEven ((z : ℤ) : ℚ) = z := by
  unfold roundHalfEven
  rw [Int.floor_intCast]
  norm_num

/-- Every value produced by the binary64 re-parse is a dyadic rational:
an integer times an integer power of two. -/
theorem float64Round_dyadic (q : ℚ) :
    ∃ n : ℤ, ∃ e : ℤ, float64Round q = (n : ℚ) * (2:ℚ) ^ e := by
  by_cases h0 : q = 0
  · refine ⟨0, 0, ?_⟩
    simp [float64Round, h0]
  · by_cases hov : (2:ℚ) ^ (1024 : ℤ) ≤ float64Scaled q
    · by_cases hneg : q < 0
      · refine ⟨-(2 ^ 53 - 1), 971, ?_⟩
        simp only [float64Round]
        rw [if_neg h0, if_pos hov, if_pos hneg]
        push_cast
        ring
      · refine ⟨2 ^ 53 - 1, 971, ?_⟩
        simp only [float64Round]
        rw [if_neg h0, if_pos hov, if_neg hneg]
        push_cast
        ring
    · by_cases hneg : q < 0
      · refine ⟨-(roundHalfEven (|q| / (2:ℚ) ^ max (Int.log 2 |q| - 52) (-1074 : ℤ))),
          max (Int.log 2 |q| - 52) (-1074 : ℤ), ?_⟩
        simp only [float64Round]
        rw [if_neg h0, if_neg hov, if_pos hneg]
        simp only [float64Scaled]
        push_cast
        ring
      · refine ⟨roundHalfEven (|q| / (2:ℚ) ^ max (Int.log 2 |q| - 52) (-1074 : ℤ)),
          max (Int.log 2 |q| - 52) (-1074 : ℤ), ?_⟩
        simp only [float64Round]
        rw [if_neg h0, if_neg hov, if_neg hneg]
        simp only [float64Scaled]
        ring

/-- One tenth is not a dyadic rational: no integer times a power of two
equals 1/10, because 5 would have to divide a power of 2. -/
theorem one_tenth_not_dyadic (n e : ℤ) : (n : ℚ) * (2:ℚ) ^ e ≠ 1 / 10 := by
  intro h
  rcases le_or_lt 0 e with he | he
  · lift e to ℕ using he with m
    rw [zpow_natCast] at h
    have h10 : ((10 * (n * 2 ^ m) : ℤ) : ℚ) = ((1 : ℤ) : ℚ) := by
      push_cast
      linarith [h]
    have hz : (10 * (n * 2 ^ m) : ℤ) = 1 := by exact_mod_cast h10
    set t : ℤ := n * 2 ^ m with ht
    omega
  · have hm : e = -(((-e).toNat : ℕ) : ℤ) := by omega
    set m : ℕ := (-e).toNat with hmdef
    rw [hm, zpow_neg, zpow_natCast] at h
    have h2m : ((2:ℚ) ^ m) ≠ 0 := by positivity
    have h10 : ((10 * n : ℤ) : ℚ) = ((2 ^ m : ℤ) : ℚ) := by
      push_cast
      field_simp at h
      linarith [h]
    have hz : (10 * n : ℤ) = 2 ^ m := by exact_mod_cast h10
    have h5 : (5 : ℤ) ∣ 2 ^ m := ⟨2 * n, by rw [← hz]; ring⟩
    have hp : Prime (5 : ℤ) := by norm_num
    have := hp.dvd_of_dvd_pow h5
    norm_num at this

/-- The binary64 re-parse fixes every integer of magnitude below 2^53:
such an integer is exactly representable, so the correctly rounded
nearest double is the integer itself. -/
theorem float64Round_intCast (n : ℤ) (h1 : 0 < n) (h2 : n < 2 ^ 53) :
    float64Round (n : ℚ) = (n : ℚ) := by
  have hqpos : (0:ℚ) < (n : ℚ) := by exact_mod_cast h1
  have hq0 : ((n : ℚ)) ≠ 0 := ne_of_gt hqpos
  have habs : |(n:ℚ)| = (n:ℚ) := abs_of_pos hqpos
  have hcast53 : (n : ℚ) < 2 ^ (53:ℕ) := by exact_mod_cast h2
  have hk0 : 0 ≤ Int.log 2 (n:ℚ) := by
    apply (Int.zpow_le_iff_le_log (by norm_num) hqpos).mp
    have : (1:ℚ) ≤ (n:ℚ) := by exact_mod_cast h1
    simpa using this
  have hk52 : Int.log 2 (n:ℚ) < 53 := by
    apply (Int.lt_zpow_iff_log_lt (by norm_num) hqpos).mp
    push_cast
    rw [show ((53:ℤ)) = ((53:ℕ):ℤ) by norm_num, zpow_natCast]
    exact hcast53
  have hmax : max (Int.log 2 (n:ℚ) - 52) (-1074 : ℤ) = Int.log 2 (n:ℚ) - 52 :=
    max_eq_left (by omega)
  have hjk : ((52 - Int.log 2 (n:ℚ)).toNat : ℤ) = 52 - Int.log 2 (n:ℚ) :=
    Int.toNat_of_nonneg (by omega)
  have hm : (n:ℚ) / (2:ℚ) ^ (Int.log 2 (n:ℚ) - 52 : ℤ) =
      ((n * 2 ^ (52 - Int.log 2 (n:ℚ)).toNat : ℤ) : ℚ) := by
    have hneg : (Int.log 2 (n:ℚ) - 52 : ℤ) = -(((52 - Int.log 2 (n:ℚ)).toNat : ℕ) : ℤ) := by
      omega
    rw [hneg, zpow_neg, div_eq_mul_inv, inv_inv, zpow_natCast]
    push_cast
    ring
  have hscaled : float64Scaled (n:ℚ) = (n:ℚ) := by
    unfold float64Scaled
    rw [habs, hmax, hm, roundHalfEven_intCast]
    have hneg : (Int.log 2 (n:ℚ) - 52 : ℤ) = -(((52 - Int.log 2 (n:ℚ)).toNat : ℕ) : ℤ) := by
      omega
    rw [hneg, zpow_neg, zpow_natCast]
    push_cast
    have hpow : ((2:ℚ) ^ (52 - Int.log 2 (n:ℚ)).toNat) ≠ 0 := by positivity
    field_simp
  have hov : ¬ (2:ℚ) ^ (1024:ℤ) ≤ float64Scaled (n:ℚ) := by
    rw [hscaled]
    push_neg
    have hbig : (2:ℚ) ^ (53:ℕ) ≤ (2:ℚ) ^ (1024:ℤ) := by
      rw [show ((1024:ℤ)) = ((1024:ℕ):ℤ) by norm_num, zpow_natCast]
      norm_num
    linarith
  unfold float64Round
  rw [if_neg hq0, if_neg hov, if_neg (not_lt.mpr hqpos.le), one_mul, hscaled]

/-- Parsing back the row written for a calculation rebuilds it with the
same operation and with each operand re-parsed through the binary64
rounding of the load path. -/
theorem parseRow_rowOfCalculation (c : Calculation) :
    CalculationHistory.parseRow (CalculationHistory.rowOfCalculation c) =
      some ⟨float64Round c.num1, float64Round c.num2, c.operation⟩ := by
  cases c with
  | mk a b op => cases op <;> rfl

/-- Saving a history and parsing every written row back yields the
history with every operand re-parsed through the binary64 rounding. -/
theorem filterMap_parseRow_map_rowOfCalculation (hist : List Calculation) :
    (hist.map CalculationHistory.rowOfCalculation).filterMap
      CalculationHistory.parseRow =
      hist.map fun c => ⟨float64Round c.num1, float64Round c.num2, c.operation⟩ := by
  induction hist with
  | nil => rfl
  | cons c t ih =>
    rw [List.map_cons, List.map_cons, List.filterMap_cons,
      parseRow_rowOfCalculation, ih]

/-- C4 (counterexample): the claimed round trip fails twice on the code.
With the empty history and a backing file still holding one record,
save_history_to_csv skips the write, so load restores the stale record
and the restored length is 1, not 0. With the non-empty history
add(0.1, 0.1), the operands are re-parsed through float64 on load; 0.1
is not a dyadic rational while every re-parsed operand is, so the
restored recomputed value differs from the original 0.2. -/
theorem save_clear_load_roundtrip_counterexample :
    ((CalculationHistory.load_history_from_csv
        (CalculationHistory.clear_history [])
        (CalculationHistory.save_history_to_csv []
          (.csv ⟨["fld_Operation", "fld_Operand1", "fld_Operand2"],
            [("addition", 1, 2)]⟩))).1.length ≠
      ([] : List Calculation).length) ∧
    ((CalculationHistory.load_history_from_csv
        (CalculationHistory.clear_history
          [Calculation.create_calculation (1/10) (1/10) .addition])
        (CalculationHistory.save_history_to_csv
          [Calculation.create_calculation (1/10) (1/10) .addition] .absent)).1.map
        Calculation.compute ≠
      ([Calculation.create_calculation (1/10) (1/10) .addition] :
        List Calculation).map Calculation.compute) := by
  constructor
  · have h : (CalculationHistory.load_history_from_csv
        (CalculationHistory.clear_history [])
        (CalculationHistory.save_history_to_csv []
          (.csv ⟨["fld_Operation", "fld_Operand1", "fld_Operand2"],
            [("addition", 1, 2)]⟩))).1 =
        [⟨float64Round 1, float64Round 2, .addition⟩] := rfl
    rw [h]
    simp
  · intro hcontra
    have h : (CalculationHistory.load_history_from_csv
        (CalculationHistory.clear_history
          [Calculation.create_calculation (1/10) (1/10) .addition])
        (CalculationHistory.save_history_to_csv
          [Calculation.create_calculation (1/10) (1/10) .addition] .absent)).1 =
        [⟨float64Round (1/10), float64Round (1/10), .addition⟩] := rfl
    rw [h] at hcontra
    simp only [List.map_cons, List.map_nil, Calculation.compute, Op.apply,
      ArithmeticOperations.addition, Calculation.create_calculation,
      List.cons.injEq, and_true, Except.ok.injEq] at hcontra
    have hfix : float64Round (1/10 : ℚ) = 1/10 := by linarith [hcontra]
    obtain ⟨n, e, hd⟩ := float64Round_dyadic (1/10)
    rw [hd] at hfix
    exact one_tenth_not_dyadic n e hfix

/-- C4 (amended): for every non-empty history built from the four
recognized operations, save(); clear(); load() restores a history of the
same length whose operation names are exactly those of the original and
whose operands are the binary64 re-parse of the originals; when every
operand is exactly representable as a binary64 float — fixed by the
re-parse, as integers below 2^53 are — the restored history equals the
original and the recomputed values are equal. (For an empty history the
save is skipped and load restores the prior file contents; an operand
such as 0.1 that is not binary-representable is perturbed by the
re-parse, so recomputed values can then differ.) -/
theorem save_clear_load_roundtrip (hist : List Calculation) (file : HistFile)
    (hne : hist ≠ []) :
    (CalculationHistory.load_history_from_csv (CalculationHistory.clear_history hist)
        (CalculationHistory.save_history_to_csv hist file)).1 =
      (hist.map fun c => ⟨float64Round c.num1, float64Round c.num2, c.operation⟩) ∧
    (CalculationHistory.load_history_from_csv (CalculationHistory.clear_history hist)
        (CalculationHistory.save_history_to_csv hist file)).1.length = hist.length ∧
    (CalculationHistory.load_history_from_csv (CalculationHistory.clear_history hist)
        (CalculationHistory.save_history_to_csv hist file)).1.map
        (fun c => c.operation.opName) =
      hist.map (fun c => c.operation.opName) ∧
    ((∀ c ∈ hist, float64Round c.num1 = c.num1 ∧ float64Round c.num2 = c.num2) →
      (CalculationHistory.load_history_from_csv (CalculationHistory.clear_history hist)
          (CalculationHistory.save_history_to_csv hist file)).1 = hist ∧
      (CalculationHistory.load_history_from_csv (CalculationHistory.clear_history hist)
          (CalculationHistory.save_history_to_csv hist file)).1.map
          Calculation.compute =
        hist.map Calculation.compute) := by
  have hsave : CalculationHistory.save_history_to_csv hist file =
      .csv ⟨CalculationHistory.csvHeader,
        hist.map CalculationHistory.rowOfCalculation⟩ := by
    unfold CalculationHistory.save_history_to_csv
    rw [if_neg hne]
  have hmain : (CalculationHistory.load_history_from_csv
      (CalculationHistory.clear_history hist)
      (CalculationHistory.save_history_to_csv hist file)).1 =
      hist.map fun c => ⟨float64Round c.num1, float64Round c.num2, c.operation⟩ := by
    rw [hsave]
    exact filterMap_parseRow_map_rowOfCalculation hist
  refine ⟨hmain, ?_, ?_, ?_⟩
  · rw [hmain, List.length_map]
  · rw [hmain, List.map_map]
    rfl
  · intro hrep
    have hfix : (hist.map fun c =>
        (⟨float64Round c.num1, float64Round c.num2, c.operation⟩ : Calculation)) =
        hist := by
      conv_rhs => rw [← List.map_id hist]
      apply List.map_congr_left
      intro c hc
      obtain ⟨hx, hy⟩ := hrep c hc
      cases c with
      | mk a b op =>
        simp only at hx hy
        simp [hx, hy]
    exact ⟨by rw [hmain, hfix], by rw [hmain, hfix]⟩

/-- Witness for C4 (amended): the round trip at the one-element history
divide(20,4), whose integer operands are binary64-representable and
hence fixed by the re-parse. -/
theorem save_clear_load_roundtrip_witness :
    ([Calculation.create_calculation 20 4 .division] : List Calculation) ≠ [] ∧
    float64Round (20 : ℚ) = 20 ∧ float64Round (4 : ℚ) = 4 ∧
    (CalculationHistory.load_history_from_csv
        (CalculationHistory.clear_history
          [Calculation.create_calculation 20 4 .division])
        (CalculationHistory.save_history_to_csv
          [Calculation.create_calculation 20 4 .division] .absent)).1 =
      [Calculation.create_calculation 20 4 .division] := by
  have h20 : float64Round (20 : ℚ) = 20 := by
    have := float64Round_intCast 20 (by norm_num) (by norm_num)
    exact_mod_cast this
  have h4 : float64Round (4 : ℚ) = 4 := by
    have := float64Round_intCast 4 (by norm_num) (by norm_num)
    exact_mod_cast this
  have hne : ([Calculation.create_calculation 20 4 .division] : List Calculation) ≠ [] :=
    fun h => List.noConfusion h
  have hrep : ∀ c ∈ ([Calculation.create_calculation 20 4 .division] : List Calculation),
      float64Round c.num1 = c.num1 ∧ float64Round c.num2 = c.num2 := by
    intro c hc
    rcases List.mem_singleton.mp hc with rfl
    exact ⟨h20, h4⟩
  exact ⟨hne, h20, h4,
    ((save_clear_load_roundtrip _ .absent hne).2.2.2 hrep).1⟩

/-- C5: the three load failure outcomes — completely empty file, absent
file, any other read failure — are reported as three distinct outcomes
and each leaves the in-memory history exactly as it was; a successful
read replaces the history wholesale, the result being independent of the
history held before the call (and possibly empty). -/
theorem load_failure_leaves_history_unchanged (hist : List Calculation) :
    CalculationHistory.load_history_from_csv hist .emptyFile = (hist, .emptyData) ∧
    CalculationHistory.load_history_from_csv hist .absent = (hist, .fileNotFound) ∧
    CalculationHistory.load_history_from_csv hist .corrupt = (hist, .otherFailure) ∧
    (LoadOutcome.emptyData ≠ LoadOutcome.fileNotFound ∧
      LoadOutcome.emptyData ≠ LoadOutcome.otherFailure ∧
      LoadOutcome.fileNotFound ≠ LoadOutcome.otherFailure) ∧
    ∀ f : CsvFile,
      (CalculationHistory.load_history_from_csv hist (.csv f)).2 = .success ∧
      ∀ hist2, (CalculationHistory.load_history_from_csv hist (.csv f)).1 =
        (CalculationHistory.load_history_from_csv hist2 (.csv f)).1 :=
  ⟨rfl, rfl, rfl, ⟨by decide, by decide, by decide⟩, fun _ => ⟨rfl, fun _ => rfl⟩⟩

/-- Witness for C5: the failure outcomes at a concrete one-element
history. -/
theorem load_failure_leaves_history_unchanged_witness :
    CalculationHistory.load_history_from_csv
        [Calculation.create_calculation 7 2 .subtraction] .emptyFile =
      ([Calculation.create_calculation 7 2 .subtraction], .emptyData) ∧
    CalculationHistory.load_history_from_csv
        [Calculation.create_calculation 7 2 .subtraction] .absent =
      ([Calculation.create_calculation 7 2 .subtraction], .fileNotFound) :=
  ⟨(load_failure_leaves_history_unchanged _).1,
    (load_failure_leaves_history_unchanged _).2.1⟩

/-- C6 (counterexample): deleting index 0 from a one-element history
succeeds and empties the history, but the backing file is NOT rewritten
— save_history_to_csv skips the write for an empty history — so the
file still holds the deleted record instead of reflecting the
post-deletion history. -/
theorem delete_last_entry_skips_rewrite_counterexample :
    CalculationHistory.delete_calculation_by_index
        [Calculation.create_calculation 1 2 .addition]
        (.csv ⟨["fld_Operation", "fld_Operand1", "fld_Operand2"],
          [("addition", 1, 2)]⟩) 0 =
      (([], .csv ⟨["fld_Operation", "fld_Operand1", "fld_Operand2"],
          [("addition", 1, 2)]⟩), none) ∧
    (HistFile.csv ⟨["fld_Operation", "fld_Operand1", "fld_Operand2"],
        [("addition", 1, 2)]⟩ ≠
      HistFile.csv ⟨["fld_Operation", "fld_Operand1", "fld_Operand2"],
        ([] : List Calculation).map CalculationHistory.rowOfCalculation⟩) := by
  refine ⟨rfl, ?_⟩
  intro h
  simp at h

/-- C6 (amended): a valid deleteByIndex rewrites the backing file to the
post-deletion history whenever that history is still non-empty; when the
deletion empties the history the write is skipped and the file keeps its
prior content. -/
theorem delete_rewrites_file_when_nonempty (hist : List Calculation)
    (file : HistFile) (i : ℤ) (h0 : 0 ≤ i) (hlen : i < (hist.length : ℤ)) :
    (CalculationHistory.delete_calculation_by_index hist file i).1.1 =
      hist.eraseIdx i.toNat ∧
    (hist.eraseIdx i.toNat ≠ [] →
      (CalculationHistory.delete_calculation_by_index hist file i).1.2 =
        .csv ⟨["fld_Operation", "fld_Operand1", "fld_Operand2"],
          (hist.eraseIdx i.toNat).map CalculationHistory.rowOfCalculation⟩) ∧
    (hist.eraseIdx i.toNat = [] →
      (CalculationHistory.delete_calculation_by_index hist file i).1.2 = file) := by
  unfold CalculationHistory.delete_calculation_by_index
  rw [if_pos ⟨h0, hlen⟩]
  refine ⟨rfl, ?_, ?_⟩
  · intro hne
    simp [CalculationHistory.save_history_to_csv, hne, CalculationHistory.csvHeader]
  · intro he
    simp [CalculationHistory.save_history_to_csv, he]

/-- Witness for C6 (amended): deleting index 0 from a two-element
history rewrites the file to the surviving record. -/
theorem delete_rewrites_file_when_nonempty_witness :
    (0 : ℤ) ≤ 0 ∧
    (0 : ℤ) < (([Calculation.create_calculation 1 2 .addition,
        Calculation.create_calculation 3 4 .multiplication] : List Calculation).length : ℤ) ∧
    (CalculationHistory.delete_calculation_by_index
        [Calculation.create_calculation 1 2 .addition,
          Calculation.create_calculation 3 4 .multiplication] .absent 0).1.2 =
      .csv ⟨["fld_Operation", "fld_Operand1", "fld_Operand2"],
        [("multiplication", 3, 4)]⟩ :=
  ⟨by decide, by decide,
    (delete_rewrites_file_when_nonempty _ .absent 0 (by decide) (by decide)).2.1
      (fun h => List.noConfusion h)⟩

/-- C7: deleteByIndex succeeds exactly on indices in the half-open range
from 0 to the length: on a valid index no error is raised, the element
at that index is removed (the prefix before it and the suffix after it
survive in order, so length drops by one); on any negative or too-large
index an IndexOutOfRange error is raised and both the history and the
backing file are left unchanged. -/
theorem delete_by_index_bounds (hist : List Calculation) (file : HistFile) (i : ℤ) :
    ((0 ≤ i ∧ i < (hist.length : ℤ)) →
      (CalculationHistory.delete_calculation_by_index hist file i).2 = none ∧
      (CalculationHistory.delete_calculation_by_index hist file i).1.1 =
        hist.take i.toNat ++ hist.drop (i.toNat + 1) ∧
      (CalculationHistory.delete_calculation_by_index hist file i).1.1.length + 1 =
        hist.length) ∧
    ((i < 0 ∨ (hist.length : ℤ) ≤ i) →
      (CalculationHistory.delete_calculation_by_index hist file i).1 = (hist, file) ∧
      (CalculationHistory.delete_calculation_by_index hist file i).2 =
        some .indexOutOfRange) := by
  constructor
  · intro hcond
    unfold CalculationHistory.delete_calculation_by_index
    rw [if_pos hcond]
    have hlt : i.toNat < hist.length := by omega
    refine ⟨rfl, ?_, ?_⟩
    · exact List.eraseIdx_eq_take_drop_succ hist i.toNat
    · exact List.length_eraseIdx_add_one hlt
  · intro hcond
    have hneg : ¬ (0 ≤ i ∧ i < (hist.length : ℤ)) := by
      rcases hcond with h | h <;> omega
    unfold CalculationHistory.delete_calculation_by_index
    rw [if_neg hneg]
    exact ⟨rfl, rfl⟩

/-- Witness for C7: on the one-element history subtract(9,1), index 0 is
deleted successfully leaving the empty history, while index -1 raises
IndexOutOfRange. -/
theorem delete_by_index_bounds_witness :
    ((0 : ℤ) ≤ 0 ∧
      (0 : ℤ) < (([Calculation.create_calculation 9 1 .subtraction] :
        List Calculation).length : ℤ)) ∧
    (CalculationHistory.delete_calculation_by_index
        [Calculation.create_calculation 9 1 .subtraction] .absent 0).1.1 = [] ∧
    (CalculationHistory.delete_calculation_by_index
        [Calculation.create_calculation 9 1 .subtraction] .absent (-1)).2 =
      some .indexOutOfRange :=
  ⟨⟨by decide, by decide⟩,
    ((delete_by_index_bounds _ .absent 0).1 ⟨by decide, by decide⟩).2.1,
    ((delete_by_index_bounds _ .absent (-1)).2 (Or.inl (by decide))).2⟩

/-- C8: on a successful read, a record whose operation name is not one
of the four recognized names contributes nothing wherever it sits in the
file — removing it does not change the loaded history — the read still
succeeds (the skip is silent, not an error), and the loaded history is
the same whatever in-memory history it replaces (wholesale replacement,
no merge). -/
theorem load_skips_unrecognized (hist hist2 : List Calculation)
    (hd : List String) (rows1 rows2 : List CsvRow) (r : CsvRow)
    (hr : CalculationHistory.operation_mapping r.1 = none) :
    (CalculationHistory.load_history_from_csv hist
        (.csv ⟨hd, rows1 ++ r :: rows2⟩)).2 = .success ∧
    (CalculationHistory.load_history_from_csv hist
        (.csv ⟨hd, rows1 ++ r :: rows2⟩)).1 =
      (CalculationHistory.load_history_from_csv hist (.csv ⟨hd, rows1 ++ rows2⟩)).1 ∧
    (CalculationHistory.load_history_from_csv hist
        (.csv ⟨hd, rows1 ++ r :: rows2⟩)).1 =
      (CalculationHistory.load_history_from_csv hist2
        (.csv ⟨hd, rows1 ++ r :: rows2⟩)).1 := by
  refine ⟨rfl, ?_, rfl⟩
  have hpr : CalculationHistory.parseRow r = none := by
    simp [CalculationHistory.parseRow, hr]
  simp [CalculationHistory.load_history_from_csv, List.filterMap_append,
    List.filterMap_cons, hpr]

/-- Witness for C8: a file holding an addition record and a record named
modulus loads to the same history as the file without the modulus
record. -/
theorem load_skips_unrecognized_witness :
    CalculationHistory.operation_mapping "modulus" = none ∧
    (CalculationHistory.load_history_from_csv []
        (.csv ⟨CalculationHistory.csvHeader,
          [("addition", 1, 2), ("modulus", 7, 8)]⟩)).1 =
      (CalculationHistory.load_history_from_csv []
        (.csv ⟨CalculationHistory.csvHeader, [("addition", 1, 2)]⟩)).1 :=
  ⟨rfl,
    (load_skips_unrecognized [] [] CalculationHistory.csvHeader
      [("addition", 1, 2)] [] ("modulus", 7, 8) rfl).2.1⟩

/-- Searching a concatenation finds nothing in the first part when the
first part has no match. -/
theorem find?_append_of_none {α : Type} (l₁ l₂ : List α) (p : α → Bool)
    (h : l₁.find? p = none) : (l₁ ++ l₂).find? p = l₂.find? p := by
  induction l₁ with
  | nil => rfl
  | cons a t ih =>
    rw [List.find?_cons] at h
    cases hpa : p a with
    | true => rw [hpa] at h; exact absurd h (by simp)
    | false =>
      rw [hpa] at h
      rw [List.cons_append, List.find?_cons, hpa]
      exact ih h

/-- Appending one element that fails the predicate does not change the
result of a search. -/
theorem find?_append_single_ne {α : Type} (l : List α) (x : α) (p : α → Bool)
    (hx : p x = false) : (l ++ [x]).find? p = l.find? p := by
  induction l with
  | nil => simp [List.find?_cons, hx]
  | cons a t ih =>
    rw [List.cons_append, List.find?_cons, List.find?_cons]
    cases hpa : p a <;> simp [hpa, ih]

/-- Replacing every entry keyed k by (k, v) does not change what a
search for a different key finds. -/
theorem find?_map_replace_ne {ε : Type} (t : List (String × Command ε))
    (k : String) (v : Command ε) (n : String) (hkn : k ≠ n) :
    ((t.map fun p => if p.1 = k then (k, v) else p).find? fun p => p.1 = n) =
      t.find? fun p => p.1 = n := by
  induction t with
  | nil => rfl
  | cons p t ih =>
    by_cases hpk : p.1 = k
    · have hpn : ¬ p.1 = n := fun hn => hkn (hpk ▸ hn)
      simp only [List.map_cons, if_pos hpk, List.find?_cons]
      have h1 : (decide ((k, v).1 = n)) = false := by simp [hkn]
      have h2 : (decide (p.1 = n)) = false := by simp [hpn]
      rw [h1, h2]
      exact ih
    · simp only [List.map_cons, if_neg hpk, List.find?_cons]
      cases hpn : decide (p.1 = n) with
      | true => rfl
      | false => exact ih

/-- When some entry is keyed k, replacing every such entry by (k, v)
makes a search for k find (k, v). -/
theorem find?_map_replace_eq {ε : Type} (t : List (String × Command ε))
    (k : String) (v : Command ε)
    (hmem : (t.any fun p => p.1 = k) = true) :
    ((t.map fun p => if p.1 = k then (k, v) else p).find? fun p => p.1 = k) =
      some (k, v) := by
  induction t with
  | nil => simp at hmem
  | cons p t ih =>
    by_cases hpk : p.1 = k
    · simp [List.find?_cons, hpk]
    · have hmem' : (t.any fun p => p.1 = k) = true := by
        simpa [List.any_cons, hpk] using hmem
      simp only [List.map_cons, if_neg hpk, List.find?_cons]
      have h2 : (decide (p.1 = k)) = false := by simp [hpk]
      rw [h2]
      exact ih hmem'

/-- The dict lookup after a dict assignment: the assigned key now maps
to the assigned value and every other key is untouched. -/
theorem findCommand_dictInsert {ε : Type} (d : List (String × Command ε))
    (k : String) (v : Command ε) (n : String) :
    CommandHandler.findCommand ⟨CommandHandler.dictInsert d k v⟩ n =
      if k = n then some v else CommandHandler.findCommand ⟨d⟩ n := by
  by_cases hany : (d.any fun p => p.1 = k) = true
  · unfold CommandHandler.dictInsert
    rw [if_pos hany]
    by_cases hkn : k = n
    · subst hkn
      unfold CommandHandler.findCommand
      rw [find?_map_replace_eq d k v hany]
      simp
    · unfold CommandHandler.findCommand
      rw [find?_map_replace_ne d k v n hkn]
      simp [hkn]
  · have hfalse : (d.any fun p => p.1 = k) = false := by
      cases h : d.any fun p => p.1 = k
      · rfl
      · exact absurd h hany
    have hnone : (d.find? fun p => p.1 = k) = none := by
      rw [List.find?_eq_none]
      intro p hp
      intro hkp
      exact absurd (List.any_eq_true.mpr ⟨p, hp, hkp⟩) hany
    unfold CommandHandler.dictInsert
    rw [if_neg (by simp [hfalse])]
    unfold CommandHandler.findCommand
    by_cases hkn : k = n
    · subst hkn
      rw [find?_append_of_none d [(k, v)] _ hnone]
      simp [List.find?_cons]
    · rw [find?_append_single_ne d (k, v) _ (by simp [hkn])]
      simp [hkn]

/-- Keys after a dict assignment: an existing key keeps the key list
unchanged (in-place update); a new key is appended at the end. -/
theorem keys_dictInsert {ε : Type} (d : List (String × Command ε))
    (k : String) (v : Command ε) :
    (CommandHandler.dictInsert d k v).map Prod.fst =
      if k ∈ d.map Prod.fst then d.map Prod.fst else d.map Prod.fst ++ [k] := by
  by_cases hany : (d.any fun p => p.1 = k) = true
  · have hmem : k ∈ d.map Prod.fst := by
      rcases List.any_eq_true.mp hany with ⟨p, hp, hpk⟩
      exact List.mem_map.mpr ⟨p, hp, by simpa using hpk.symm⟩
    unfold CommandHandler.dictInsert
    rw [if_pos hany, if_pos hmem, List.map_map]
    apply List.map_congr_left
    intro p _
    by_cases hpk : p.1 = k <;> simp [hpk]
  · have hmem : k ∉ d.map Prod.fst := by
      intro hk
      rcases List.mem_map.mp hk with ⟨p, hp, hpk⟩
      exact hany (List.any_eq_true.mpr ⟨p, hp, by simp [hpk]⟩)
    unfold CommandHandler.dictInsert
    rw [if_neg hany, if_neg hmem, List.map_append]
    rfl

/-- Every entry of a registry built by registrations is keyed by the
name of the command it stores. -/
theorem key_eq_name_registerAll {ε : Type} (cs : List (Command ε))
    (d : List (String × Command ε)) (hd : ∀ p ∈ d, p.1 = p.2.name) :
    ∀ p ∈ (CommandHandler.registerAll ⟨d⟩ cs).commands, p.1 = p.2.name := by
  induction cs generalizing d with
  | nil => exact hd
  | cons c cs ih =>
    have step : ∀ p ∈ CommandHandler.dictInsert d c.name c, p.1 = p.2.name := by
      intro p hp
      unfold CommandHandler.dictInsert at hp
      by_cases hany : (d.any fun q => q.1 = c.name) = true
      · rw [if_pos hany] at hp
        rcases List.mem_map.mp hp with ⟨q, hq, hqp⟩
        by_cases hqk : q.1 = c.name
        · rw [if_pos hqk] at hqp
          rw [← hqp]
        · rw [if_neg hqk] at hqp
          rw [← hqp]
          exact hd q hq
      · rw [if_neg hany] at hp
        rcases List.mem_append.mp hp with hq | hq
        · exact hd p hq
        · rcases List.mem_singleton.mp hq with rfl
          rfl
    exact ih (CommandHandler.dictInsert d c.name c) step

/-- The key list of a registry built by a registration sequence: each
distinct name is appended when first registered and never moves. -/
theorem keys_registerAll {ε : Type} (cs : List (Command ε))
    (d : List (String × Command ε)) :
    (CommandHandler.registerAll ⟨d⟩ cs).commands.map Prod.fst =
      cs.foldl (fun ks c => if c.name ∈ ks then ks else ks ++ [c.name])
        (d.map Prod.fst) := by
  induction cs generalizing d with
  | nil => rfl
  | cons c cs ih =>
    show (CommandHandler.registerAll
        ⟨CommandHandler.dictInsert d c.name c⟩ cs).commands.map Prod.fst = _
    rw [ih, keys_dictInsert, List.foldl_cons]

/-- The dict lookup of a registry built by a registration sequence is
the fold of single assignments over the starting lookup. -/
theorem findCommand_registerAll {ε : Type} (cs : List (Command ε))
    (d : List (String × Command ε)) (n : String) :
    CommandHandler.findCommand (CommandHandler.registerAll ⟨d⟩ cs) n =
      cs.foldl (fun acc c => if c.name = n then some c else acc)
        (CommandHandler.findCommand ⟨d⟩ n) := by
  induction cs generalizing d with
  | nil => rfl
  | cons c cs ih =>
    show CommandHandler.findCommand (CommandHandler.registerAll
        ⟨CommandHandler.dictInsert d c.name c⟩ cs) n = _
    rw [ih, findCommand_dictInsert, List.foldl_cons]

/-- C9: registering a command under a name that is already registered
overwrites the existing entry: starting from a registry not yet holding
the name, the first registration appends the (name, description) pair to
the listing, and a second registration under the same name emits the
overwrite warning, raises no failure (register_command is total), and
leaves the listing identical except that the pair now carries the second
command's description — last write wins. -/
theorem register_same_name_overwrites {ε : Type} (h : CommandHandler ε)
    (c₁ c₂ : Command ε) (hname : c₁.name = c₂.name)
    (hfresh : ∀ p ∈ h.commands, p.1 ≠ c₁.name) :
    CommandHandler.get_commands (CommandHandler.register_command h c₁).1 =
      CommandHandler.get_commands h ++ [(c₁.name, c₁.description)] ∧
    (CommandHandler.register_command h c₁).2 = false ∧
    (CommandHandler.register_command
        (CommandHandler.register_command h c₁).1 c₂).2 = true ∧
    CommandHandler.get_commands
        (CommandHandler.register_command
          (CommandHandler.register_command h c₁).1 c₂).1 =
      CommandHandler.get_commands h ++ [(c₂.name, c₂.description)] := by
  have hany1 : (h.commands.any fun p => p.1 = c₁.name) = false := by
    rw [List.any_eq_false]
    intro p hp
    simpa using hfresh p hp
  have hreg1 : (CommandHandler.register_command h c₁).1.commands =
      h.commands ++ [(c₁.name, c₁)] := by
    unfold CommandHandler.register_command CommandHandler.dictInsert
    rw [if_neg (by simp [hany1])]
  have hsnd : ∀ (g : CommandHandler ε) (c : Command ε),
      (CommandHandler.register_command g c).2 =
        g.commands.any fun p => p.1 = c.name := fun _ _ => rfl
  have hfst : ∀ (g : CommandHandler ε) (c : Command ε),
      (CommandHandler.register_command g c).1.commands =
        CommandHandler.dictInsert g.commands c.name c := fun _ _ => rfl
  have hany2 : (((CommandHandler.register_command h c₁).1.commands.any
      fun p => p.1 = c₂.name)) = true := by
    rw [hreg1]
    simp [List.any_append, hname]
  refine ⟨?_, ?_, ?_, ?_⟩
  · unfold CommandHandler.get_commands
    rw [hreg1, List.map_append]
    rfl
  · rw [hsnd]
    simpa using hany1
  · rw [hsnd]
    exact hany2
  · have hc2 : (CommandHandler.register_command
        (CommandHandler.register_command h c₁).1 c₂).1.commands =
        (h.commands ++ [(c₁.name, c₁)]).map
          fun p => if p.1 = c₂.name then (c₂.name, c₂) else p := by
      rw [hfst]
      unfold CommandHandler.dictInsert
      rw [if_pos hany2, hreg1]
    unfold CommandHandler.get_commands
    rw [hc2, List.map_map, List.map_append]
    have hleft : (h.commands.map
        ((fun p => (p.2.name, p.2.description)) ∘
          fun p => if p.1 = c₂.name then (c₂.name, c₂) else p)) =
        h.commands.map fun p => (p.2.name, p.2.description) := by
      apply List.map_congr_left
      intro p hp
      have : ¬ p.1 = c₂.name := fun hc => hfresh p hp (hname ▸ hc)
      simp [Function.comp, this]
    rw [hleft]
    have hright : (([(c₁.name, c₁)].map
        ((fun p => (p.2.name, p.2.description)) ∘
          fun p => if p.1 = c₂.name then (c₂.name, c₂) else p))) =
        [(c₂.name, c₂.description)] := by
      simp [Function.comp, hname]
    rw [hright]
/-- Witness for C9: two commands both called greet; after registering
both, the listing holds one greet entry carrying the second description,
and the overwrite warning fired only on the second registration. -/
theorem register_same_name_overwrites_witness :
    CommandHandler.get_commands
        (CommandHandler.register_command
          (CommandHandler.register_command (⟨[]⟩ : CommandHandler Unit)
            ⟨"greet", "first version", fun _ => .ok ()⟩).1
          ⟨"greet", "second version", fun _ => .ok ()⟩).1 =
      [("greet", "second version")] ∧
    (CommandHandler.register_command
        (CommandHandler.register_command (⟨[]⟩ : CommandHandler Unit)
          ⟨"greet", "first version", fun _ => .ok ()⟩).1
        ⟨"greet", "second version", fun _ => .ok ()⟩).2 = true :=
  ⟨(register_same_name_overwrites (⟨[]⟩ : CommandHandler Unit)
      ⟨"greet", "first version", fun _ => .ok ()⟩
      ⟨"greet", "second version", fun _ => .ok ()⟩ rfl
      (fun p hp => absurd hp (List.not_mem_nil p))).2.2.2,
    (register_same_name_overwrites (⟨[]⟩ : CommandHandler Unit)
      ⟨"greet", "first version", fun _ => .ok ()⟩
      ⟨"greet", "second version", fun _ => .ok ()⟩ rfl
      (fun p hp => absurd hp (List.not_mem_nil p))).2.2.1⟩

/-- C10: for every registration sequence starting from the empty
registry, the names listed by get_commands appear in the order each
distinct name was first registered (re-registering never moves a name),
and the command looked up under any name is the last one registered with
that name — its handler and description replace the old entry in
place. -/
theorem get_commands_order_first_registration {ε : Type} (cs : List (Command ε)) :
    (CommandHandler.get_commands
        (CommandHandler.registerAll ⟨[]⟩ cs)).map Prod.fst = firstSeen cs ∧
    ∀ n, CommandHandler.findCommand (CommandHandler.registerAll ⟨[]⟩ cs) n =
      lastNamed cs n := by
  constructor
  · have hinv := key_eq_name_registerAll cs []
      (fun p hp => absurd hp (List.not_mem_nil p))
    have hkeys := keys_registerAll cs []
    unfold CommandHandler.get_commands
    rw [List.map_map]
    have hnames : ((CommandHandler.registerAll
          (⟨[]⟩ : CommandHandler ε) cs).commands.map
        (Prod.fst ∘ fun p => (p.2.name, p.2.description))) =
        (CommandHandler.registerAll (⟨[]⟩ : CommandHandler ε) cs).commands.map
          Prod.fst := by
      apply List.map_congr_left
      intro p hp
      exact (hinv p hp).symm
    rw [hnames, hkeys]
    rfl
  · intro n
    rw [findCommand_registerAll cs [] n]
    rfl

/-- Witness for C10: registering alpha, beta, then alpha again lists
alpha before beta with alpha carrying the latest description, and the
lookup of alpha returns the last registration. -/
theorem get_commands_order_first_registration_witness :
    (CommandHandler.get_commands (CommandHandler.registerAll
        (⟨[]⟩ : CommandHandler Unit)
        [⟨"alpha", "one", fun _ => .ok ()⟩, ⟨"beta", "two", fun _ => .ok ()⟩,
          ⟨"alpha", "three", fun _ => .ok ()⟩])).map Prod.fst =
      ["alpha", "beta"] ∧
    CommandHandler.get_commands (CommandHandler.registerAll
        (⟨[]⟩ : CommandHandler Unit)
        [⟨"alpha", "one", fun _ => .ok ()⟩, ⟨"beta", "two", fun _ => .ok ()⟩,
          ⟨"alpha", "three", fun _ => .ok ()⟩]) =
      [("alpha", "three"), ("beta", "two")] :=
  ⟨(get_commands_order_first_registration
      [⟨"alpha", "one", fun _ => .ok ()⟩, ⟨"beta", "two", fun _ => .ok ()⟩,
        ⟨"alpha", "three", fun _ => .ok ()⟩]).1.trans rfl,
    rfl⟩
